import Mathlib

/-!
Shallow embedding of `osbuild/meta.py`: the validation-error model
(`ValidationError`, `ValidationResult`), the schema wrapper (`Schema`),
the module-schema synthesizer (`ModuleInfo.get_schema`) and the caching
`Index` (module info, schemata, format detection).

Python strings are modelled as Lean `String` with code-point-wise
comparison (`strLt`, matching Python `<` on strings) and the substring
test `" " in p` as membership of the space character in the data.
Python `dict`s are modelled as insertion-ordered association lists.
-/

set_option maxRecDepth 8000

namespace OsbuildMeta

/-- Lexicographic order on char lists, matching Python string `<`
(code-point comparison, a strict prefix is smaller). -/
def charListLt : List Char → List Char → Bool
  | [], [] => false
  | [], _ :: _ => true
  | _ :: _, [] => false
  | a :: as, b :: bs => if a < b then true else if b < a then false else charListLt as bs

/-- Python string `<` on the underlying code points. -/
def strLt (a b : String) : Bool := charListLt a.data b.data

/-- Path segment of a validation error: Python allows `str` or `int`
entries in the `path` deque. -/
inductive Seg where
  | str (s : String)
  | int (n : Int)
  deriving DecidableEq, Repr

/-- Mirrors `ValidationError`: a message and a path of segments. -/
structure VError where
  message : String
  path : List Seg
  deriving DecidableEq, Repr

/-- Mirrors the `ValidationError.id` property: "." for an empty path,
otherwise the loop accumulating per-segment tokens into `result`. -/
def errId (e : VError) : String :=
  if e.path.isEmpty then "."
  else
    e.path.foldl (fun result p =>
      match p with
      | .str s => result ++ "." ++ (if s.data.contains ' ' then "'" ++ s ++ "'" else s)
      | .int n => result ++ "[" ++ toString n ++ "]") ""

/-- Mirrors `ValidationError.rebase`: prepend `path` to `self.path`
(`extendleft(reversed(path))`). -/
def rebase (p : List Seg) (e : VError) : VError :=
  { e with path := p ++ e.path }

/-- Mirrors `ValidationError.__eq__` on two errors: `False` when the ids
differ, else message comparison. -/
def errEqb (a b : VError) : Bool :=
  if errId a != errId b then false
  else a.message == b.message

/-- Mirrors `ValidationError.__lt__` on two errors: `self.id < other.id`. -/
def errLtb (a b : VError) : Bool :=
  strLt (errId a) (errId b)

/-- Mirrors `ValidationResult`: an origin label and the error set,
modelled as the list of set members. -/
structure VResult where
  origin : Option String
  errors : List VError
  deriving DecidableEq, Repr

/-- Mirrors `set.add` on `ValidationResult.errors`: a no-op when an
`__eq__`-equal member already exists, else the element is inserted. -/
def VResult.addErr (r : VResult) (e : VError) : VResult :=
  if r.errors.any (fun x => errEqb x e) then r
  else { r with errors := r.errors ++ [e] }

/-- Mirrors `ValidationResult.fail`: add a fresh error with empty path. -/
def VResult.failMsg (r : VResult) (msg : String) : VResult :=
  r.addErr ⟨msg, []⟩

/-- Mirrors `ValidationResult.valid`: true iff there are zero errors. -/
def VResult.valid (r : VResult) : Bool :=
  r.errors.length == 0

/-- Mirrors `ValidationResult.merge`: deep-copy each error of `other`,
rebase it by `path`, and add it to the set. -/
def VResult.merge (r : VResult) (other : VResult) (p : List Seg) : VResult :=
  other.errors.foldl (fun acc e => acc.addErr (rebase p e)) r

/-! Spec-side definitions for the error-identity and ordering claims. -/

/-- Spec-side per-segment token: `.segment` (quoted when it contains a
space) for a string segment, `[n]` for an integer segment. -/
def segTokSpec : Seg → String
  | .str s => "." ++ (if s.data.contains ' ' then "'" ++ s ++ "'" else s)
  | .int n => "[" ++ toString n ++ "]"

/-- Spec-side order on the pair `(identity, message)`: lexicographic. -/
def pairLtb (a b : VError) : Bool :=
  strLt (errId a) (errId b) || (errId a == errId b && strLt a.message b.message)

/-! Helper lemmas about `errId`. -/

lemma join_cons (a : String) (l : List String) :
    String.join (a :: l) = a ++ String.join l := by
  apply String.ext
  simp [String.join_eq]

lemma foldl_tok (l : List Seg) (acc : String) :
    l.foldl (fun result p =>
      match p with
      | Seg.str s => result ++ "." ++ (if s.data.contains ' ' then "'" ++ s ++ "'" else s)
      | Seg.int n => result ++ "[" ++ toString n ++ "]") acc
    = acc ++ String.join (l.map segTokSpec) := by
  induction l generalizing acc with
  | nil => simp [String.join]
  | cons p rest ih =>
    simp only [List.foldl_cons, List.map_cons]
    rw [ih]
    have hstep : (match p with
        | Seg.str s => acc ++ "." ++ (if s.data.contains ' ' then "'" ++ s ++ "'" else s)
        | Seg.int n => acc ++ "[" ++ toString n ++ "]") = acc ++ segTokSpec p := by
      cases p <;> simp [segTokSpec, String.append_assoc]
    rw [hstep, join_cons, String.append_assoc]

lemma errId_ne_nil (e : VError) (h : e.path ≠ []) :
    errId e = String.join (e.path.map segTokSpec) := by
  unfold errId
  rw [if_neg (by simpa [List.isEmpty_iff] using h), foldl_tok, String.empty_append]

lemma length_dot : ".".length = 1 := rfl

lemma length_quote : "'".length = 1 := rfl

lemma length_lbracket : "[".length = 1 := rfl

lemma length_rbracket : "]".length = 1 := rfl

lemma segTok_length (p : Seg) : 1 ≤ (segTokSpec p).length := by
  cases p with
  | str s =>
    simp only [segTokSpec]
    split <;> simp [String.length_append, length_dot, length_quote]
  | int n =>
    simp [segTokSpec, String.length_append, length_lbracket, length_rbracket]

lemma str_eq_empty_of_length (s : String) (h : s.length = 0) : s = "" :=
  String.ext (List.eq_nil_of_length_eq_zero h)

lemma segTok_eq_dot (p : Seg) : segTokSpec p = "." ↔ p = Seg.str "" := by
  cases p with
  | str s =>
    simp only [segTokSpec, Seg.str.injEq]
    constructor
    · intro h
      have hl := congrArg String.length h
      split at hl <;>
        simp only [String.length_append, length_dot, length_quote] at hl
      · omega
      · exact str_eq_empty_of_length s (by omega)
    · intro h
      subst h
      rfl
  | int n =>
    constructor
    · intro h
      have hl := congrArg String.length h
      simp only [segTokSpec, String.length_append, length_lbracket, length_rbracket,
        length_dot] at hl
      omega
    · intro h
      cases h

lemma join_eq_dot (l : List Seg) (h : l ≠ []) :
    String.join (l.map segTokSpec) = "." ↔ l = [Seg.str ""] := by
  cases l with
  | nil => exact absurd rfl h
  | cons p rest =>
    cases rest with
    | nil =>
      rw [List.map_cons, List.map_nil, join_cons,
        show String.join [] = "" from rfl, String.append_empty, segTok_eq_dot]
      simp
    | cons q rest' =>
      constructor
      · intro hj
        exfalso
        have hl := congrArg String.length hj
        rw [List.map_cons, List.map_cons, join_cons, join_cons, String.length_append,
          String.length_append, length_dot] at hl
        have h1 := segTok_length p
        have h2 := segTok_length q
        omega
      · intro hc
        simp at hc

/-- Claim C1 (amended): `e.id` is "." when the path is empty; for a
non-empty path it is the concatenation of the per-segment tokens
(string segment → "." followed by the segment, single-quoted when it
contains a space; integer segment → "[n]"); and `e.id = "."` holds iff
the path is empty or is the single empty-string segment. -/
theorem errId_token_spec (e : VError) :
    (e.path = [] → errId e = ".") ∧
    (e.path ≠ [] → errId e = String.join (e.path.map segTokSpec)) ∧
    (errId e = "." ↔ e.path = [] ∨ e.path = [Seg.str ""]) := by
  refine ⟨?_, errId_ne_nil e, ?_⟩
  · intro h
    unfold errId
    rw [if_pos (by simp [h])]
  · by_cases h : e.path = []
    · simp [errId, h]
    · rw [errId_ne_nil e h, join_eq_dot _ h]
      simp [h]

/-- Claim C1 witness: a concrete error with path `["a b", 3]` has
identity `.'a b'[3]`. -/
theorem errId_token_spec_witness :
    errId ⟨"m", [Seg.str "a b", Seg.int 3]⟩ = ".'a b'[3]" :=
  ((errId_token_spec ⟨"m", [Seg.str "a b", Seg.int 3]⟩).2.1 (by simp)).trans (by rfl)

/-- Claim C1 counterexample: the error with the single empty-string
path segment has identity "." although its path is not empty, refuting
the claimed "id = '.' iff path empty" equivalence. -/
theorem errId_dot_nonempty_path :
    errId ⟨"m", [Seg.str ""]⟩ = "." ∧ ([Seg.str ""] : List Seg) ≠ [] :=
  ⟨rfl, by simp⟩

/-- Claim C2 counterexample: two errors with equal identity "." and
messages "a" < "b" compare as less-than on the pair (identity, message),
but the code's `__lt__` returns False, since it compares identities
only. -/
theorem pair_order_vs_code_order :
    pairLtb ⟨"a", []⟩ ⟨"b", []⟩ = true ∧ errLtb ⟨"a", []⟩ ⟨"b", []⟩ = false :=
  ⟨rfl, rfl⟩

/-- Claim C2 (amended): equality derives from the pair
(identity, message); the less-than ordering derives from the identity
alone — it equals the identity comparison and ignores both messages. -/
theorem eq_lt_derivation (e1 e2 : VError) :
    (errEqb e1 e2 = true ↔ (errId e1, e1.message) = (errId e2, e2.message)) ∧
    (errLtb e1 e2 = strLt (errId e1) (errId e2)) ∧
    (∀ m1 m2, errLtb { e1 with message := m1 } { e2 with message := m2 } = errLtb e1 e2) := by
  refine ⟨?_, rfl, fun m1 m2 => rfl⟩
  unfold errEqb
  by_cases hid : errId e1 = errId e2 <;> simp [hid, Prod.ext_iff]

/-! Helper lemmas about the deduplicating error set. -/

lemma errEqb_refl (e : VError) : errEqb e e = true := by
  simp [errEqb]

lemma addErr_mem (r : VResult) (e x : VError) (hx : x ∈ r.errors) :
    x ∈ (r.addErr e).errors := by
  unfold VResult.addErr
  split
  · exact hx
  · simp [hx]

lemma addErr_of_present (r : VResult) (e : VError)
    (h : ∃ x ∈ r.errors, errEqb x e = true) : r.addErr e = r := by
  have hany : r.errors.any (fun x => errEqb x e) = true := List.any_eq_true.mpr h
  simp [VResult.addErr, hany]

lemma addErr_key_mem (r : VResult) (e : VError) :
    ∃ x ∈ (r.addErr e).errors, errEqb x e = true := by
  cases hany : r.errors.any (fun x => errEqb x e) with
  | true =>
    obtain ⟨x, hx, hk⟩ := List.any_eq_true.mp hany
    exact ⟨x, addErr_mem r e x hx, hk⟩
  | false =>
    refine ⟨e, ?_, errEqb_refl e⟩
    simp [VResult.addErr, hany]

lemma merge_foldl_mem (l : List VError) (r : VResult) (p : List Seg) (x : VError)
    (hx : x ∈ r.errors) :
    x ∈ (l.foldl (fun acc e => acc.addErr (rebase p e)) r).errors := by
  induction l generalizing r with
  | nil => exact hx
  | cons a l ih => exact ih _ (addErr_mem _ _ _ hx)

lemma merge_key_mem (l : List VError) (r : VResult) (p : List Seg) (e : VError)
    (he : e ∈ l) :
    ∃ x ∈ (l.foldl (fun acc e => acc.addErr (rebase p e)) r).errors,
      errEqb x (rebase p e) = true := by
  induction l generalizing r with
  | nil => cases he
  | cons a l ih =>
    rcases List.mem_cons.mp he with rfl | h
    · obtain ⟨x, hx, hk⟩ := addErr_key_mem r (rebase p e)
      exact ⟨x, merge_foldl_mem l _ p x hx, hk⟩
    · exact ih _ h

lemma merge_noop (l : List VError) (r : VResult) (p : List Seg)
    (h : ∀ e ∈ l, ∃ x ∈ r.errors, errEqb x (rebase p e) = true) :
    l.foldl (fun acc e => acc.addErr (rebase p e)) r = r := by
  induction l with
  | nil => rfl
  | cons a l ih =>
    rw [List.foldl_cons, addErr_of_present r (rebase p a) (h a (by simp))]
    exact ih (fun e he => h e (by simp [he]))

/-- Claim C3: merging the same source result into a result twice (with
the same rebase path) is idempotent: the second merge changes nothing,
so in particular the error count is that of a single merge. -/
theorem merge_idempotent (r other : VResult) (p : List Seg) :
    (r.merge other p).merge other p = r.merge other p ∧
    ((r.merge other p).merge other p).errors.length = (r.merge other p).errors.length := by
  have h : (r.merge other p).merge other p = r.merge other p :=
    merge_noop other.errors (r.merge other p) p
      (fun e he => merge_key_mem other.errors r p e he)
  exact ⟨h, by rw [h]⟩

/-! Schema wrapper. The `jsonschema` library is abstracted as an engine
with a meta-schema check (`check_schema`, raising at most one schema
error) and instance validation (`iter_errors`, yielding one native
violation per error, each carrying message and path). Python falsy
schema data (`None`, empty) is modelled as `none`. -/

structure JSEngine (SData Target : Type) where
  checkSchema : SData → Option VError
  iterErrors : SData → Target → List VError

/-- Mirrors `Schema`: schema data (none when absent/falsy), the entity
name, and whether a compiled validator is cached (`_validator`). -/
structure Schema (SData : Type) where
  data : Option SData
  name : Option String
  validator : Bool

/-- Mirrors `Schema.__init__`: stores data and name, no validator yet. -/
def Schema.ofData {SData : Type} (d : Option SData) (n : Option String) : Schema SData :=
  ⟨d, n, false⟩

/-- Mirrors `Schema.check`: short-circuit on a cached validator; fail
with "missing schema information" on absent data; otherwise check the
schema against the meta-schema, caching the validator on success. -/
def Schema.check {SData Target : Type} (eng : JSEngine SData Target) (s : Schema SData) :
    VResult × Schema SData :=
  let res : VResult := ⟨s.name, []⟩
  if s.validator then (res, s)
  else
    match s.data with
    | none => (res.failMsg "missing schema information", s)
    | some d =>
      match eng.checkSchema d with
      | some err => (res.addErr err, s)
      | none => (res, { s with validator := true })

/-- Mirrors `Schema.validate`: run `check` first and return its result
unmodified when invalid; otherwise add one `ValidationError` per
instance-validation violation to the (empty) check result. -/
def Schema.validate {SData Target : Type} (eng : JSEngine SData Target) (s : Schema SData)
    (t : Target) : VResult × Schema SData :=
  let p := Schema.check eng s
  if p.1.valid = false then p
  else
    match p.2.data with
    | some d => ((eng.iterErrors d t).foldl (fun acc e => acc.addErr e) p.1, p.2)
    | none => p

lemma foldl_addErr_all_new (l : List VError) (r : VResult)
    (h : ∀ e ∈ l, ∀ x ∈ r.errors, errEqb x e = false)
    (hp : l.Pairwise (fun a b => errEqb a b = false)) :
    l.foldl (fun acc e => acc.addErr e) r = ⟨r.origin, r.errors ++ l⟩ := by
  induction l generalizing r with
  | nil => cases r; simp
  | cons a l ih =>
    have hadd : r.addErr a = ⟨r.origin, r.errors ++ [a]⟩ := by
      have hany : r.errors.any (fun x => errEqb x a) = false := by
        rw [List.any_eq_false]
        intro x hx
        simp [h a (by simp) x hx]
      cases r
      simp [VResult.addErr, hany]
    rw [List.foldl_cons, hadd]
    rw [ih ⟨r.origin, r.errors ++ [a]⟩ ?hnew ((List.pairwise_cons.mp hp).2)]
    · simp
    case hnew =>
      intro e he x hx
      rcases List.mem_append.mp hx with hxr | hxa
      · exact h e (by simp [he]) x hxr
      · rw [List.mem_singleton.mp hxa]
        exact (List.pairwise_cons.mp hp).1 e he

lemma check_fresh_none {SData Target : Type} (eng : JSEngine SData Target)
    (s : Schema SData) (hv : s.validator = false) (hd : s.data = none) :
    Schema.check eng s = (⟨s.name, [⟨"missing schema information", []⟩]⟩, s) := by
  unfold Schema.check
  rw [if_neg (by simp [hv]), hd]
  simp [VResult.failMsg, VResult.addErr]

lemma check_fresh_bad {SData Target : Type} (eng : JSEngine SData Target)
    (s : Schema SData) (d : SData) (err : VError) (hv : s.validator = false)
    (hd : s.data = some d) (hcs : eng.checkSchema d = some err) :
    Schema.check eng s = (⟨s.name, [err]⟩, s) := by
  unfold Schema.check
  rw [if_neg (by simp [hv]), hd]
  simp only [hcs]
  simp [VResult.addErr]

lemma check_fresh_ok {SData Target : Type} (eng : JSEngine SData Target)
    (s : Schema SData) (d : SData) (hv : s.validator = false)
    (hd : s.data = some d) (hcs : eng.checkSchema d = none) :
    Schema.check eng s = (⟨s.name, []⟩, { s with validator := true }) := by
  unfold Schema.check
  rw [if_neg (by simp [hv]), hd]
  simp only [hcs]

/-- Claim C4: `validate` performs the schema self-check first; an
invalid self-check result is returned unmodified with no instance
validation; otherwise the result is a fresh result named after the
schema with one `ValidationError` per instance-validation violation
(provided the violations are pairwise distinct as (identity, message),
since the error set deduplicates). -/
theorem validate_checks_first {SData Target : Type} (eng : JSEngine SData Target)
    (s : Schema SData) (t : Target) (hv : s.validator = false) :
    ((Schema.check eng s).1.valid = false → Schema.validate eng s t = Schema.check eng s) ∧
    ((Schema.check eng s).1.valid = true →
      ∃ d, s.data = some d ∧
        ((eng.iterErrors d t).Pairwise (fun a b => errEqb a b = false) →
          Schema.validate eng s t =
            (⟨s.name, eng.iterErrors d t⟩, { s with validator := true }))) := by
  constructor
  · intro hbad
    unfold Schema.validate
    rw [if_pos hbad]
  · intro hgood
    cases hd : s.data with
    | none =>
      rw [check_fresh_none eng s hv hd] at hgood
      simp [VResult.valid] at hgood
    | some d =>
      refine ⟨d, rfl, fun hpair => ?_⟩
      cases hcs : eng.checkSchema d with
      | some err =>
        rw [check_fresh_bad eng s d err hv hd hcs] at hgood
        simp [VResult.valid] at hgood
      | none =>
        have hc := check_fresh_ok eng s d hv hd hcs
        unfold Schema.validate
        rw [hc]
        simp only [VResult.valid, List.length_nil]
        rw [if_neg (by simp)]
        simp only [hd]
        rw [foldl_addErr_all_new _ _ (fun e he x hx => absurd hx (List.not_mem_nil x)) hpair]
        simp

/-- Concrete engine over unit schema data and unit targets, used to
instantiate the schema theorems. -/
def unitEngine : JSEngine Unit Unit :=
  ⟨fun _ => none, fun _ _ => [⟨"bad", []⟩]⟩

/-- Claim C4 witness: validating through `unitEngine` against a present
schema runs instance validation and reports its single violation. -/
theorem validate_checks_first_witness :
    Schema.validate unitEngine (Schema.ofData (some ()) none) () =
      (⟨none, [⟨"bad", []⟩]⟩, { Schema.ofData (some ()) none with validator := true }) := by
  obtain ⟨d, hd, himp⟩ :=
    (validate_checks_first unitEngine (Schema.ofData (some ()) none) () rfl).2 rfl
  exact himp (by simp [unitEngine])

/-- Claim C5: a schema constructed with absent (falsy) data validates
any target to an invalid result holding exactly the single error
"missing schema information". -/
theorem absent_schema_validate {SData Target : Type} (eng : JSEngine SData Target)
    (n : Option String) (t : Target) :
    (Schema.validate eng (Schema.ofData none n) t).1.valid = false ∧
    (Schema.validate eng (Schema.ofData none n) t).1.errors =
      [⟨"missing schema information", []⟩] :=
  ⟨rfl, rfl⟩

/-! Python dynamic comparison operands for C10: a value handed to
`__eq__`/`__lt__` is either a `ValidationError` or some other value. -/

inductive PyVal where
  | verr (e : VError)
  | int (n : Int)
  | str (s : String)
  | none
  | bool (b : Bool)

/-- Mirrors `ValidationError.__eq__` on an arbitrary operand: raises
`ValueError("Need ValidationError")` unless the operand is a
`ValidationError`. -/
def eqPyVal (e : VError) (other : PyVal) : Except String Bool :=
  match other with
  | .verr o => .ok (errEqb e o)
  | _ => .error "Need ValidationError"

/-- Mirrors `ValidationError.__lt__` on an arbitrary operand: raises
`ValueError("Need ValidationError")` unless the operand is a
`ValidationError`. -/
def ltPyVal (e : VError) (other : PyVal) : Except String Bool :=
  match other with
  | .verr o => .ok (errLtb e o)
  | _ => .error "Need ValidationError"

/-- Claim C10: comparing a `ValidationError` with any non-error value
raises `ValueError("Need ValidationError")` for both `==` and `<`. -/
theorem compare_non_error_raises (e : VError) (v : PyVal) (h : ∀ e2, v ≠ PyVal.verr e2) :
    eqPyVal e v = .error "Need ValidationError" ∧
    ltPyVal e v = .error "Need ValidationError" := by
  cases v with
  | verr o => exact absurd rfl (h o)
  | int n => exact ⟨rfl, rfl⟩
  | str s => exact ⟨rfl, rfl⟩
  | none => exact ⟨rfl, rfl⟩
  | bool b => exact ⟨rfl, rfl⟩

/-- Claim C10 witness: comparing an error against the integer 3 raises
for both operators. -/
theorem compare_non_error_raises_witness :
    eqPyVal ⟨"m", []⟩ (PyVal.int 3) = .error "Need ValidationError" ∧
    ltPyVal ⟨"m", []⟩ (PyVal.int 3) = .error "Need ValidationError" :=
  compare_non_error_raises ⟨"m", []⟩ (PyVal.int 3) (fun e2 h => by cases h)

/-! JSON values and Python dict operations, for the schema objects
built by `ModuleInfo.get_schema`. Dicts are insertion-ordered
association lists; assignment replaces in place or appends. -/

inductive JValue where
  | null
  | bool (b : Bool)
  | num (n : Int)
  | str (s : String)
  | arr (elems : List JValue)
  | obj (entries : List (String × JValue))

abbrev JObj := List (String × JValue)

/-- Python `d[k]` lookup returning `none` when the key is absent. -/
def dictGet (o : JObj) (k : String) : Option JValue :=
  match o with
  | [] => none
  | (k1, v) :: rest => if k1 = k then some v else dictGet rest k

/-- Python `d[k] = v`: replace the value in place, else append. -/
def dictSet (o : JObj) (k : String) (v : JValue) : JObj :=
  match o with
  | [] => [(k, v)]
  | (k1, v1) :: rest => if k1 = k then (k1, v) :: rest else (k1, v1) :: dictSet rest k v

/-- Python `d.update(other)`: assign every entry of `other` in order. -/
def dictUpdate (o : JObj) (other : JObj) : JObj :=
  other.foldl (fun acc kv => dictSet acc kv.1 kv.2) o

/-- Python `del d[k]`: remove the entry, `none` (KeyError) if absent. -/
def dictDel (o : JObj) (k : String) : Option JObj :=
  match o with
  | [] => none
  | (k1, v1) :: rest =>
    if k1 = k then some rest
    else (dictDel rest k).map (fun r => (k1, v1) :: r)

/-- Python truthiness of a JSON value. -/
def truthy : JValue → Bool
  | .null => false
  | .bool b => b
  | .num n => !(n == 0)
  | .str s => !(s == "")
  | .arr l => !l.isEmpty
  | .obj o => !o.isEmpty

/-- Mirrors `ModuleInfo`: module name, class (`type`), path, the doc
strings, and the parsed options fragment `opts`. -/
structure ModuleInfo where
  name : String
  type : String
  path : String
  info : Option String
  desc : Option String
  opts : JObj

/-- Base envelope of `ModuleInfo.get_schema`: title, object type and
`additionalProperties: false`. -/
def ModuleInfo.baseSchema (m : ModuleInfo) : JObj :=
  [("title", .str ("Pipeline " ++ m.type)),
   ("type", .str "object"),
   ("additionalProperties", .bool false)]

/-- The `options` schema for Stage/Assembler: object type spread with
the fragment (`{"type": "object", **self.opts}`). -/
def ModuleInfo.optionsSchema (m : ModuleInfo) : JObj :=
  dictUpdate [("type", .str "object")] m.opts

/-- The `properties` dict for Stage/Assembler: the name enum and the
options schema. -/
def ModuleInfo.propsSchema (m : ModuleInfo) : JObj :=
  [("name", .obj [("enum", .arr [.str m.name])]),
   ("options", .obj m.optionsSchema)]

/-- The envelope before `definitions` hoisting: Stage/Assembler wrap
the fragment under `properties` with `required = ["name"]`; any other
class merges the fragment directly into the envelope. -/
def ModuleInfo.envelope (m : ModuleInfo) : JObj :=
  if m.type = "Stage" ∨ m.type = "Assembler" then
    dictSet (dictSet m.baseSchema "properties" (.obj m.propsSchema))
      "required" (.arr [.str "name"])
  else
    dictUpdate m.baseSchema m.opts

/-- Mirrors `del schema["properties"]["options"]["definitions"]`: each
missing key raises KeyError, a non-dict subscript raises TypeError. -/
def delNestedDefinitions (schema : JObj) : Except String JObj :=
  match dictGet schema "properties" with
  | some (.obj props) =>
    match dictGet props "options" with
    | some (.obj options) =>
      match dictDel options "definitions" with
      | some options1 =>
        .ok (dictSet schema "properties" (.obj (dictSet props "options" (.obj options1))))
      | none => .error "KeyError: definitions"
    | some _ => .error "TypeError: options"
    | none => .error "KeyError: options"
  | some _ => .error "TypeError: properties"
  | none => .error "KeyError: properties"

/-- Hoisting step of `get_schema`: when the fragment's `definitions`
value is present and truthy, place it at the schema's top level and
delete the nested copy. -/
def hoistDefinitions (opts schema : JObj) : Except String JObj :=
  match dictGet opts "definitions" with
  | some defs =>
    if truthy defs = true then
      delNestedDefinitions (dictSet schema "definitions" defs)
    else .ok schema
  | none => .ok schema

/-- Mirrors `ModuleInfo.get_schema`: build the class-specific envelope,
then hoist a truthy `definitions` node of the fragment. -/
def ModuleInfo.get_schema (m : ModuleInfo) : Except String JObj :=
  hoistDefinitions m.opts m.envelope

/-- Claim C6 counterexample: for a concrete Stage module with an empty
options fragment, the synthesized schema's `required` list is exactly
`["name"]` — it does not require `options`. -/
theorem stage_required_name_only :
    ModuleInfo.get_schema ⟨"mystage", "Stage", "p", none, none, []⟩ =
      .ok [("title", .str "Pipeline Stage"), ("type", .str "object"),
           ("additionalProperties", .bool false),
           ("properties", .obj
             [("name", .obj [("enum", .arr [.str "mystage"])]),
              ("options", .obj [("type", .str "object")])]),
           ("required", .arr [.str "name"])] ∧
    (JValue.str "options") ∉ [JValue.str "name"] := by
  refine ⟨rfl, ?_⟩
  intro h
  rw [List.mem_singleton] at h
  injection h with h2
  exact absurd h2 (by decide)

/-- Claim C7 counterexample: for a Source module whose fragment holds a
(truthy) `definitions` object, `get_schema` raises a KeyError instead
of returning a schema (there is no nested `options` schema to delete
from); and for a Stage module whose `definitions` is the empty (falsy)
object, nothing is hoisted: the synthesized top level has no
`definitions` key and the nested options schema keeps it. -/
theorem definitions_hoist_counterexample :
    ModuleInfo.get_schema
        ⟨"files", "Source", "p", none, none, [("definitions", JValue.obj [("a", JValue.num 1)])]⟩ =
      .error "KeyError: properties" ∧
    ModuleInfo.get_schema ⟨"s", "Stage", "p", none, none, [("definitions", JValue.obj [])]⟩ =
      .ok [("title", .str "Pipeline Stage"), ("type", .str "object"),
           ("additionalProperties", .bool false),
           ("properties", .obj
             [("name", .obj [("enum", .arr [.str "s"])]),
              ("options", .obj [("type", .str "object"), ("definitions", .obj [])])]),
           ("required", .arr [.str "name"])] ∧
    dictGet [("title", JValue.str "Pipeline Stage"), ("type", JValue.str "object"),
             ("additionalProperties", JValue.bool false),
             ("properties", JValue.obj
               [("name", JValue.obj [("enum", JValue.arr [JValue.str "s"])]),
                ("options", JValue.obj [("type", JValue.str "object"), ("definitions", JValue.obj [])])]),
             ("required", JValue.arr [JValue.str "name"])] "definitions" = none :=
  ⟨rfl, rfl, rfl⟩

/-! Lemmas about the dict operations. -/

lemma mem_keys_of_get (o : JObj) (k : String) (v : JValue) (h : dictGet o k = some v) :
    k ∈ o.map Prod.fst := by
  induction o with
  | nil => cases h
  | cons kv rest ih =>
    obtain ⟨k1, v1⟩ := kv
    simp only [dictGet] at h
    by_cases h1 : k1 = k
    · simp [h1]
    · rw [if_neg h1] at h
      simp [ih h]

lemma mem_keys_dictSet (o : JObj) (k : String) (v : JValue) (k' : String)
    (h : k' ∈ o.map Prod.fst) : k' ∈ (dictSet o k v).map Prod.fst := by
  induction o with
  | nil => cases h
  | cons kv rest ih =>
    obtain ⟨k1, v1⟩ := kv
    simp only [dictSet]
    by_cases h1 : k1 = k
    · simpa [h1] using h
    · rw [if_neg h1]
      rcases List.mem_cons.mp h with h2 | h2
      · simp [h2]
      · simp [ih h2]

lemma mem_keys_dictSet_self (o : JObj) (k : String) (v : JValue) :
    k ∈ (dictSet o k v).map Prod.fst := by
  induction o with
  | nil => simp [dictSet]
  | cons kv rest ih =>
    obtain ⟨k1, v1⟩ := kv
    simp only [dictSet]
    by_cases h1 : k1 = k
    · simp [h1]
    · rw [if_neg h1]
      simp [ih]

lemma mem_keys_dictSet_cases (o : JObj) (k : String) (v : JValue) (k' : String)
    (h : k' ∈ (dictSet o k v).map Prod.fst) : k' ∈ o.map Prod.fst ∨ k' = k := by
  induction o with
  | nil =>
    simp [dictSet] at h
    exact Or.inr h
  | cons kv rest ih =>
    obtain ⟨k1, v1⟩ := kv
    simp only [dictSet] at h
    by_cases h1 : k1 = k
    · rw [if_pos h1] at h
      rcases List.mem_cons.mp h with h2 | h2
      · exact Or.inl (by simp [h2])
      · exact Or.inl (by simp [h2])
    · rw [if_neg h1] at h
      rcases List.mem_cons.mp h with h2 | h2
      · exact Or.inl (by simp [h2])
      · rcases ih h2 with h3 | h3
        · exact Or.inl (by simp [h3])
        · exact Or.inr h3

lemma mem_keys_dictUpdate_left (o other : JObj) (k : String)
    (h : k ∈ o.map Prod.fst) : k ∈ (dictUpdate o other).map Prod.fst := by
  induction other generalizing o with
  | nil => exact h
  | cons kv rest ih => exact ih _ (mem_keys_dictSet o kv.1 kv.2 k h)

lemma mem_keys_dictUpdate_right (o other : JObj) (k : String)
    (h : k ∈ other.map Prod.fst) : k ∈ (dictUpdate o other).map Prod.fst := by
  induction other generalizing o with
  | nil => cases h
  | cons kv rest ih =>
    obtain ⟨k1, v1⟩ := kv
    rcases List.mem_cons.mp h with h2 | h2
    · simp only at h2
      subst h2
      exact mem_keys_dictUpdate_left _ rest k (mem_keys_dictSet_self o k v1)
    · exact ih _ h2

lemma dictDel_some_of_mem (o : JObj) (k : String) (h : k ∈ o.map Prod.fst) :
    ∃ o1, dictDel o k = some o1 := by
  induction o with
  | nil => cases h
  | cons kv rest ih =>
    obtain ⟨k1, v1⟩ := kv
    by_cases h1 : k1 = k
    · exact ⟨rest, by simp [dictDel, h1]⟩
    · have h2 : k ∈ rest.map Prod.fst := by
        rcases List.mem_cons.mp h with h3 | h3
        · exact absurd h3.symm h1
        · exact h3
      obtain ⟨o1, ho1⟩ := ih h2
      exact ⟨(k1, v1) :: o1, by simp [dictDel, h1, ho1]⟩

lemma dictDel_get_other (o o1 : JObj) (k : String) (h : dictDel o k = some o1)
    (k' : String) (hne : k' ≠ k) : dictGet o1 k' = dictGet o k' := by
  induction o generalizing o1 with
  | nil => cases h
  | cons kv rest ih =>
    obtain ⟨k1, v1⟩ := kv
    simp only [dictDel] at h
    by_cases h1 : k1 = k
    · rw [if_pos h1] at h
      cases h
      subst h1
      rw [dictGet, if_neg (fun hh => hne hh.symm)]
    · rw [if_neg h1] at h
      rcases Option.map_eq_some'.mp h with ⟨r1, hr1, hcons⟩
      subst hcons
      simp only [dictGet]
      by_cases h2 : k1 = k'
      · rw [if_pos h2, if_pos h2]
      · rw [if_neg h2, if_neg h2]
        exact ih r1 hr1

lemma dictGet_none_of_not_mem (o : JObj) (k : String) (h : k ∉ o.map Prod.fst) :
    dictGet o k = none := by
  induction o with
  | nil => rfl
  | cons kv rest ih =>
    obtain ⟨k1, v1⟩ := kv
    simp only [dictGet]
    rw [if_neg (fun hh => h (by simp [hh]))]
    exact ih (fun hh => h (by simp [hh]))

lemma dictDel_get_same : ∀ (o o1 : JObj) (k : String),
    (o.map Prod.fst).Nodup → dictDel o k = some o1 → dictGet o1 k = none
  | [], o1, k, _, h => by cases h
  | (k1, v1) :: rest, o1, k, hnd, h => by
    have hnd1 : (k1 :: rest.map Prod.fst).Nodup := by simpa using hnd
    have hpair := List.nodup_cons.mp hnd1
    simp only [dictDel] at h
    by_cases h1 : k1 = k
    · rw [if_pos h1] at h
      cases h
      subst h1
      exact dictGet_none_of_not_mem _ _ hpair.1
    · rw [if_neg h1] at h
      rcases Option.map_eq_some'.mp h with ⟨r1, hr1, hcons⟩
      subst hcons
      rw [dictGet, if_neg h1]
      exact dictDel_get_same rest r1 k hpair.2 hr1

lemma nodup_keys_dictSet (o : JObj) (k : String) (v : JValue)
    (h : (o.map Prod.fst).Nodup) : ((dictSet o k v).map Prod.fst).Nodup := by
  induction o with
  | nil => simp [dictSet]
  | cons kv rest ih =>
    obtain ⟨k1, v1⟩ := kv
    have hcons : (k1 :: rest.map Prod.fst).Nodup := by simpa using h
    have hpair := List.nodup_cons.mp hcons
    simp only [dictSet]
    by_cases hk : k1 = k
    · rw [if_pos hk]
      simpa using h
    · rw [if_neg hk]
      simp only [List.map_cons, List.nodup_cons]
      refine ⟨?_, ih hpair.2⟩
      intro hm
      rcases mem_keys_dictSet_cases rest k v k1 hm with h3 | h3
      · exact hpair.1 h3
      · exact hk h3

lemma nodup_keys_dictUpdate (o other : JObj) (h : (o.map Prod.fst).Nodup) :
    ((dictUpdate o other).map Prod.fst).Nodup := by
  induction other generalizing o with
  | nil => exact h
  | cons kv rest ih => exact ih _ (nodup_keys_dictSet o kv.1 kv.2 h)

/-! Characterizations of the hoisting step. -/

lemma hoist_absent (opts schema : JObj) (hdef : dictGet opts "definitions" = none) :
    hoistDefinitions opts schema = .ok schema := by
  unfold hoistDefinitions
  rw [hdef]

lemma hoist_falsy (opts schema : JObj) (defs : JValue)
    (hdef : dictGet opts "definitions" = some defs) (ht : truthy defs = false) :
    hoistDefinitions opts schema = .ok schema := by
  unfold hoistDefinitions
  rw [hdef]
  simp [ht]

lemma hoist_truthy (opts schema : JObj) (defs : JValue)
    (hdef : dictGet opts "definitions" = some defs) (ht : truthy defs = true) :
    hoistDefinitions opts schema = delNestedDefinitions (dictSet schema "definitions" defs) := by
  unfold hoistDefinitions
  rw [hdef]
  simp [ht]

lemma envelope_stage (m : ModuleInfo) (hty : m.type = "Stage" ∨ m.type = "Assembler") :
    m.envelope =
      [("title", .str ("Pipeline " ++ m.type)),
       ("type", .str "object"),
       ("additionalProperties", .bool false),
       ("properties", .obj m.propsSchema),
       ("required", .arr [.str "name"])] := by
  unfold ModuleInfo.envelope
  rw [if_pos hty]
  rfl

/-- Claim C6 (amended): for every Stage or Assembler module the
synthesized schema is an object schema with `additionalProperties`
false, a `name` property enum-constrained to the module's own name, an
`options` property that is the object schema built from the options
fragment (up to the `definitions` key, which hoisting may remove), and
`required` equal to `["name"]` — `options` is not required. -/
theorem stage_assembler_schema (m : ModuleInfo)
    (hty : m.type = "Stage" ∨ m.type = "Assembler") :
    ∃ o options : JObj,
      ModuleInfo.get_schema m = .ok o ∧
      dictGet o "title" = some (.str ("Pipeline " ++ m.type)) ∧
      dictGet o "type" = some (.str "object") ∧
      dictGet o "additionalProperties" = some (.bool false) ∧
      dictGet o "required" = some (.arr [.str "name"]) ∧
      (∃ props, dictGet o "properties" = some (.obj props) ∧
        dictGet props "name" = some (.obj [("enum", .arr [.str m.name])]) ∧
        dictGet props "options" = some (.obj options)) ∧
      (∀ k, k ≠ "definitions" →
        dictGet options k = dictGet (dictUpdate [("type", JValue.str "object")] m.opts) k) := by
  have he := envelope_stage m hty
  cases hdef : dictGet m.opts "definitions" with
  | none =>
    refine ⟨m.envelope, m.optionsSchema,
      by unfold ModuleInfo.get_schema; rw [hoist_absent _ _ hdef], ?_⟩
    rw [he]
    exact ⟨rfl, rfl, rfl, rfl, ⟨m.propsSchema, rfl, rfl, rfl⟩, fun k hk => rfl⟩
  | some defs =>
    cases ht : truthy defs with
    | false =>
      refine ⟨m.envelope, m.optionsSchema,
        by unfold ModuleInfo.get_schema; rw [hoist_falsy _ _ defs hdef ht], ?_⟩
      rw [he]
      exact ⟨rfl, rfl, rfl, rfl, ⟨m.propsSchema, rfl, rfl, rfl⟩, fun k hk => rfl⟩
    | true =>
      have hmem : "definitions" ∈ m.optionsSchema.map Prod.fst :=
        mem_keys_dictUpdate_right _ m.opts _ (mem_keys_of_get m.opts _ defs hdef)
      obtain ⟨options1, hdel⟩ := dictDel_some_of_mem _ _ hmem
      have hschema2 : dictSet m.envelope "definitions" defs =
          [("title", .str ("Pipeline " ++ m.type)),
           ("type", .str "object"),
           ("additionalProperties", .bool false),
           ("properties", .obj m.propsSchema),
           ("required", .arr [.str "name"]),
           ("definitions", defs)] := by
        rw [he]
        rfl
      have hdeln : delNestedDefinitions (dictSet m.envelope "definitions" defs) =
          .ok [("title", .str ("Pipeline " ++ m.type)),
               ("type", .str "object"),
               ("additionalProperties", .bool false),
               ("properties", .obj
                 [("name", .obj [("enum", .arr [.str m.name])]),
                  ("options", .obj options1)]),
               ("required", .arr [.str "name"]),
               ("definitions", defs)] := by
        rw [hschema2]
        show (match dictDel m.optionsSchema "definitions" with
          | some options1 =>
            Except.ok (dictSet
              [("title", JValue.str ("Pipeline " ++ m.type)),
               ("type", JValue.str "object"),
               ("additionalProperties", JValue.bool false),
               ("properties", JValue.obj m.propsSchema),
               ("required", JValue.arr [JValue.str "name"]),
               ("definitions", defs)] "properties"
              (JValue.obj (dictSet m.propsSchema "options" (JValue.obj options1))))
          | none => Except.error "KeyError: definitions") = _
        rw [hdel]
        rfl
      have hgs : ModuleInfo.get_schema m =
          .ok [("title", .str ("Pipeline " ++ m.type)),
               ("type", .str "object"),
               ("additionalProperties", .bool false),
               ("properties", .obj
                 [("name", .obj [("enum", .arr [.str m.name])]),
                  ("options", .obj options1)]),
               ("required", .arr [.str "name"]),
               ("definitions", defs)] := by
        unfold ModuleInfo.get_schema
        rw [hoist_truthy _ _ defs hdef ht, hdeln]
      refine ⟨[("title", .str ("Pipeline " ++ m.type)),
               ("type", .str "object"),
               ("additionalProperties", .bool false),
               ("properties", .obj
                 [("name", .obj [("enum", .arr [.str m.name])]),
                  ("options", .obj options1)]),
               ("required", .arr [.str "name"]),
               ("definitions", defs)], options1, hgs,
        rfl, rfl, rfl, rfl,
        ⟨[("name", .obj [("enum", .arr [.str m.name])]), ("options", .obj options1)],
          rfl, rfl, rfl⟩, ?_⟩
      intro k hk
      exact dictDel_get_other m.optionsSchema options1 "definitions" hdel k hk

/-- Claim C6 witness: the amended schema shape at a concrete Stage
module with fragment `{"foo": true}`. -/
theorem stage_assembler_schema_witness :
    ∃ o options : JObj,
      ModuleInfo.get_schema ⟨"mystage", "Stage", "p", none, none, [("foo", JValue.bool true)]⟩ =
        .ok o ∧
      dictGet o "title" = some (.str ("Pipeline " ++ "Stage")) ∧
      dictGet o "type" = some (.str "object") ∧
      dictGet o "additionalProperties" = some (.bool false) ∧
      dictGet o "required" = some (.arr [.str "name"]) ∧
      (∃ props, dictGet o "properties" = some (.obj props) ∧
        dictGet props "name" = some (.obj [("enum", .arr [.str "mystage"])]) ∧
        dictGet props "options" = some (.obj options)) ∧
      (∀ k, k ≠ "definitions" →
        dictGet options k =
          dictGet (dictUpdate [("type", JValue.str "object")] [("foo", JValue.bool true)]) k) :=
  stage_assembler_schema ⟨"mystage", "Stage", "p", none, none, [("foo", JValue.bool true)]⟩
    (Or.inl rfl)

/-- Claim C7 (amended): for a Stage or Assembler module whose options
fragment carries a truthy `definitions` value, the synthesized schema
hoists it to the top level and removes it from the nested `options`
schema. -/
theorem definitions_hoisted (m : ModuleInfo)
    (hty : m.type = "Stage" ∨ m.type = "Assembler")
    (defs : JValue) (hdef : dictGet m.opts "definitions" = some defs)
    (ht : truthy defs = true) :
    ∃ o props options1 : JObj,
      ModuleInfo.get_schema m = .ok o ∧
      dictGet o "definitions" = some defs ∧
      dictGet o "properties" = some (.obj props) ∧
      dictGet props "options" = some (.obj options1) ∧
      dictGet options1 "definitions" = none := by
  have he := envelope_stage m hty
  have hmem : "definitions" ∈ m.optionsSchema.map Prod.fst :=
    mem_keys_dictUpdate_right _ m.opts _ (mem_keys_of_get m.opts _ defs hdef)
  obtain ⟨options1, hdel⟩ := dictDel_some_of_mem _ _ hmem
  have hnd : (m.optionsSchema.map Prod.fst).Nodup :=
    nodup_keys_dictUpdate [("type", .str "object")] m.opts (by simp)
  have hschema2 : dictSet m.envelope "definitions" defs =
      [("title", .str ("Pipeline " ++ m.type)),
       ("type", .str "object"),
       ("additionalProperties", .bool false),
       ("properties", .obj m.propsSchema),
       ("required", .arr [.str "name"]),
       ("definitions", defs)] := by
    rw [he]
    rfl
  have hdeln : delNestedDefinitions (dictSet m.envelope "definitions" defs) =
      .ok [("title", .str ("Pipeline " ++ m.type)),
           ("type", .str "object"),
           ("additionalProperties", .bool false),
           ("properties", .obj
             [("name", .obj [("enum", .arr [.str m.name])]),
              ("options", .obj options1)]),
           ("required", .arr [.str "name"]),
           ("definitions", defs)] := by
    rw [hschema2]
    show (match dictDel m.optionsSchema "definitions" with
      | some options1 =>
        Except.ok (dictSet
          [("title", JValue.str ("Pipeline " ++ m.type)),
           ("type", JValue.str "object"),
           ("additionalProperties", JValue.bool false),
           ("properties", JValue.obj m.propsSchema),
           ("required", JValue.arr [JValue.str "name"]),
           ("definitions", defs)] "properties"
          (JValue.obj (dictSet m.propsSchema "options" (JValue.obj options1))))
      | none => Except.error "KeyError: definitions") = _
    rw [hdel]
    rfl
  have hgs : ModuleInfo.get_schema m =
      .ok [("title", .str ("Pipeline " ++ m.type)),
           ("type", .str "object"),
           ("additionalProperties", .bool false),
           ("properties", .obj
             [("name", .obj [("enum", .arr [.str m.name])]),
              ("options", .obj options1)]),
           ("required", .arr [.str "name"]),
           ("definitions", defs)] := by
    unfold ModuleInfo.get_schema
    rw [hoist_truthy _ _ defs hdef ht, hdeln]
  exact ⟨[("title", .str ("Pipeline " ++ m.type)),
          ("type", .str "object"),
          ("additionalProperties", .bool false),
          ("properties", .obj
            [("name", .obj [("enum", .arr [.str m.name])]),
             ("options", .obj options1)]),
          ("required", .arr [.str "name"]),
          ("definitions", defs)],
    [("name", .obj [("enum", .arr [.str m.name])]), ("options", .obj options1)], options1,
    hgs, rfl, rfl, rfl,
    dictDel_get_same m.optionsSchema options1 "definitions" hnd hdel⟩

/-- Claim C7 witness: the amended hoisting at a concrete Stage module
with fragment `{"definitions": {"x": 1}}`. -/
theorem definitions_hoisted_witness :
    ∃ o props options1 : JObj,
      ModuleInfo.get_schema
          ⟨"s", "Stage", "p", none, none, [("definitions", JValue.obj [("x", JValue.num 1)])]⟩ =
        .ok o ∧
      dictGet o "definitions" = some (JValue.obj [("x", JValue.num 1)]) ∧
      dictGet o "properties" = some (.obj props) ∧
      dictGet props "options" = some (.obj options1) ∧
      dictGet options1 "definitions" = none :=
  definitions_hoisted
    ⟨"s", "Stage", "p", none, none, [("definitions", JValue.obj [("x", JValue.num 1)])]⟩
    (Or.inl rfl) (JValue.obj [("x", JValue.num 1)]) rfl rfl

/-! The caching `Index`. Filesystem and import machinery are abstracted
as oracle fields: `fsLoad` models `ModuleInfo.load` from disk,
`manifestData` the on-disk manifest schema document (falsy/missing as
`none`), `miSchema` the synthesized module schema (`error` when
`get_schema` raises), `fmtLoad` a `FormatInfo.load` and `formatNames`
the `list_formats()` enumeration. Caches are association lists; probe
counters report how many oracle loads a call performed. -/

/-- Association-list lookup (Python dict `get`). -/
def assocGet {K V : Type} [DecidableEq K] (l : List (K × V)) (k : K) : Option V :=
  match l with
  | [] => none
  | (k1, v) :: rest => if k1 = k then some v else assocGet rest k

/-- Association-list assignment (Python dict `d[k] = v`). -/
def assocSet {K V : Type} [DecidableEq K] (l : List (K × V)) (k : K) (v : V) : List (K × V) :=
  match l with
  | [] => [(k, v)]
  | (k1, v1) :: rest => if k1 = k then (k1, v) :: rest else (k1, v1) :: assocSet rest k v

lemma assocGet_set_self {K V : Type} [DecidableEq K] (l : List (K × V)) (k : K) (v : V) :
    assocGet (assocSet l k v) k = some v := by
  induction l with
  | nil => simp [assocSet, assocGet]
  | cons kv rest ih =>
    obtain ⟨k1, v1⟩ := kv
    simp only [assocSet]
    by_cases h1 : k1 = k
    · rw [if_pos h1]
      simp [assocGet, h1]
    · rw [if_neg h1]
      simp [assocGet, h1, ih]

lemma assocGet_set_other {K V : Type} [DecidableEq K] (l : List (K × V)) (k : K) (v : V)
    (k' : K) (h : k' ≠ k) : assocGet (assocSet l k v) k' = assocGet l k' := by
  induction l with
  | nil =>
    simp only [assocSet, assocGet]
    rw [if_neg (Ne.symm h)]
  | cons kv rest ih =>
    obtain ⟨k1, v1⟩ := kv
    simp only [assocSet]
    by_cases h1 : k1 = k
    · rw [if_pos h1]
      subst h1
      simp only [assocGet]
      rw [if_neg (Ne.symm h), if_neg (Ne.symm h)]
    · rw [if_neg h1]
      simp only [assocGet]
      by_cases h2 : k1 = k'
      · rw [if_pos h2, if_pos h2]
      · rw [if_neg h2, if_neg h2]
        exact ih

/-- Mirrors `FormatInfo`: the handler module, its version tag and its
two-part documentation. -/
structure FormatInfo where
  moduleName : String
  version : String
  info : String
  desc : String
  deriving DecidableEq, Repr

/-- Mirrors `Index`: root path, oracles for the filesystem and module
loading, and the three memoization caches. -/
structure Index (MI SData : Type) where
  path : String
  fsLoad : String × Option String → Option MI
  manifestData : Option SData
  miSchema : MI → Except String SData
  fmtLoad : String → FormatInfo
  formatNames : List String
  moduleInfoCache : List ((String × Option String) × Option MI)
  formatInfoCache : List (String × FormatInfo)
  schemaCache : List ((String × Option String) × Schema SData)

/-- Mirrors `Index.get_module_info`: load (and cache, also when absent)
unless already cached; the `Nat` counts filesystem loads performed. -/
def Index.get_module_info {MI SData : Type} (idx : Index MI SData) (klass : String)
    (name : Option String) : Option MI × Index MI SData × Nat :=
  match assocGet idx.moduleInfoCache (klass, name) with
  | some v => (v, idx, 0)
  | none =>
    (idx.fsLoad (klass, name),
     { idx with moduleInfoCache :=
        assocSet idx.moduleInfoCache (klass, name) (idx.fsLoad (klass, name)) }, 1)

/-- Mirrors `Index.get_format_info`: memoized `FormatInfo.load`. -/
def Index.get_format_info {MI SData : Type} (idx : Index MI SData) (name : String) :
    FormatInfo × Index MI SData :=
  match assocGet idx.formatInfoCache name with
  | some i => (i, idx)
  | none =>
    (idx.fmtLoad name,
     { idx with formatInfoCache := assocSet idx.formatInfoCache name (idx.fmtLoad name) })

/-- The scanning loop of `detect_format_info`: resolve each format in
order and return the first whose version matches. -/
def detectScan {MI SData : Type} (idx : Index MI SData) (names : List String) (v : String) :
    Option FormatInfo × Index MI SData :=
  match names with
  | [] => (none, idx)
  | n :: rest =>
    let p := idx.get_format_info n
    if p.1.version = v then (some p.1, p.2) else detectScan p.2 rest v

/-- Mirrors `Index.detect_format_info`: read the document's `version`
(default "1") and scan `list_formats()` in enumeration order. -/
def Index.detect_format_info {MI SData : Type} (idx : Index MI SData)
    (doc : List (String × String)) : Option FormatInfo × Index MI SData :=
  detectScan idx idx.formatNames ((assocGet doc "version").getD "1")

/-- Python `name or klass` for the schema label. -/
def nameOrKlass (name : Option String) (klass : String) : String :=
  match name with
  | some n => if n = "" then klass else n
  | none => klass

/-- Store a schema in the cache (`self._schemata[(klass, name)] = schema`). -/
def Index.cacheSchema {MI SData : Type} (idx : Index MI SData) (key : String × Option String)
    (s : Schema SData) : Index MI SData :=
  { idx with schemaCache := assocSet idx.schemaCache key s }

/-- Mirrors `Index.get_schema`: serve from the cache; else build the
schema data for Manifest (the on-disk document) or a module class (via
`get_module_info` and the module's synthesized schema), wrap it in a
`Schema` and cache it; any other klass raises ValueError. The `Nat`
counts filesystem loads performed by `get_module_info`. -/
def Index.get_schema {MI SData : Type} (idx : Index MI SData) (klass : String)
    (name : Option String) : Except String (Schema SData × Index MI SData × Nat) :=
  match assocGet idx.schemaCache (klass, name) with
  | some s => .ok (s, idx, 0)
  | none =>
    if klass = "Manifest" then
      .ok (Schema.ofData idx.manifestData (some (nameOrKlass name klass)),
        idx.cacheSchema (klass, name)
          (Schema.ofData idx.manifestData (some (nameOrKlass name klass))), 0)
    else if klass = "Assembler" ∨ klass = "Input" ∨ klass = "Source" ∨ klass = "Stage" then
      match (idx.get_module_info klass name).1 with
      | some mi =>
        match idx.miSchema mi with
        | .ok d =>
          .ok (Schema.ofData (some d) (some (nameOrKlass name klass)),
            (idx.get_module_info klass name).2.1.cacheSchema (klass, name)
              (Schema.ofData (some d) (some (nameOrKlass name klass))),
            (idx.get_module_info klass name).2.2)
        | .error e => .error e
      | none =>
        .ok (Schema.ofData none (some (nameOrKlass name klass)),
          (idx.get_module_info klass name).2.1.cacheSchema (klass, name)
            (Schema.ofData none (some (nameOrKlass name klass))),
          (idx.get_module_info klass name).2.2)
    else
      .error ("Unknown klass: " ++ klass)

lemma get_module_info_twice {MI SData : Type} (idx : Index MI SData) (klass : String)
    (name : Option String) :
    ((idx.get_module_info klass name).2.1.get_module_info klass name) =
      ((idx.get_module_info klass name).1, (idx.get_module_info klass name).2.1, 0) := by
  cases hc : assocGet idx.moduleInfoCache (klass, name) with
  | some v =>
    have h1 : idx.get_module_info klass name = (v, idx, 0) := by
      unfold Index.get_module_info
      rw [hc]
    rw [h1]
    unfold Index.get_module_info
    rw [hc]
  | none =>
    have h1 : idx.get_module_info klass name =
        (idx.fsLoad (klass, name),
         { idx with moduleInfoCache :=
            assocSet idx.moduleInfoCache (klass, name) (idx.fsLoad (klass, name)) }, 1) := by
      unfold Index.get_module_info
      rw [hc]
    rw [h1]
    unfold Index.get_module_info
    rw [show assocGet (assocSet idx.moduleInfoCache (klass, name) (idx.fsLoad (klass, name)))
        (klass, name) = some (idx.fsLoad (klass, name)) from assocGet_set_self _ _ _]

lemma get_schema_hit {MI SData : Type} (idx : Index MI SData) (klass : String)
    (name : Option String) (s : Schema SData)
    (h : assocGet idx.schemaCache (klass, name) = some s) :
    idx.get_schema klass name = .ok (s, idx, 0) := by
  unfold Index.get_schema
  rw [h]

lemma get_schema_ok_cache {MI SData : Type} (idx : Index MI SData) (klass : String)
    (name : Option String) (s1 : Schema SData) (i1 : Index MI SData) (n1 : Nat)
    (h : idx.get_schema klass name = .ok (s1, i1, n1)) :
    assocGet i1.schemaCache (klass, name) = some s1 := by
  unfold Index.get_schema at h
  split at h
  next s hs =>
    simp only [Except.ok.injEq, Prod.mk.injEq] at h
    obtain ⟨rfl, rfl, rfl⟩ := h
    exact hs
  next hs =>
    split at h
    · simp only [Except.ok.injEq, Prod.mk.injEq] at h
      obtain ⟨rfl, rfl, rfl⟩ := h
      simp only [Index.cacheSchema]
      exact assocGet_set_self _ _ _
    · split at h
      · split at h
        next mi hmi =>
          split at h
          next d hd =>
            simp only [Except.ok.injEq, Prod.mk.injEq] at h
            obtain ⟨rfl, rfl, rfl⟩ := h
            simp only [Index.cacheSchema]
            exact assocGet_set_self _ _ _
          next e he => cases h
        next hmi =>
          simp only [Except.ok.injEq, Prod.mk.injEq] at h
          obtain ⟨rfl, rfl, rfl⟩ := h
          simp only [Index.cacheSchema]
          exact assocGet_set_self _ _ _
      · cases h

/-- Claim C8: repeated `Index` calls with identical keys are served
from the caches: a second `get_module_info` with the same (klass, name)
returns the same (possibly absent) result with no filesystem probe and
leaves the index unchanged, and after a successful `get_schema` the
same call on the resulting index returns the identical cached `Schema`
with no probe. -/
theorem caches_return_same {MI SData : Type} (idx : Index MI SData) (klass : String)
    (name : Option String) :
    ((idx.get_module_info klass name).2.1.get_module_info klass name) =
      ((idx.get_module_info klass name).1, (idx.get_module_info klass name).2.1, 0) ∧
    (∀ (s1 : Schema SData) (i1 : Index MI SData) (n1 : Nat),
      idx.get_schema klass name = .ok (s1, i1, n1) →
      i1.get_schema klass name = .ok (s1, i1, 0)) := by
  refine ⟨get_module_info_twice idx klass name, ?_⟩
  intro s1 i1 n1 h
  exact get_schema_hit i1 klass name s1 (get_schema_ok_cache idx klass name s1 i1 n1 h)

/-- Concrete index over unit payloads, used to instantiate the cache
and format-detection theorems. -/
def unitIndex : Index Unit Unit where
  path := "root"
  fsLoad := fun _ => none
  manifestData := none
  miSchema := fun _ => .ok ()
  fmtLoad := fun _ => ⟨"m", "1", "i", "d"⟩
  formatNames := []
  moduleInfoCache := []
  formatInfoCache := []
  schemaCache := []

/-- The concrete index after the first `get_schema` call for the
missing Stage module "x": absent module info and absent schema cached. -/
def unitIndex1 : Index Unit Unit :=
  { unitIndex with
      moduleInfoCache := [(("Stage", some "x"), none)],
      schemaCache := [(("Stage", some "x"), Schema.ofData none (some "x"))] }

/-- Claim C8 witness: on a concrete index, the second module-info call
probes nothing, and the second schema call returns the cached schema
for a missing Stage module. -/
theorem caches_return_same_witness :
    ((unitIndex.get_module_info "Stage" (some "x")).2.1.get_module_info "Stage" (some "x")).2.2 = 0 ∧
    unitIndex1.get_schema "Stage" (some "x") =
      .ok (Schema.ofData none (some "x"), unitIndex1, 0) := by
  have h := caches_return_same unitIndex "Stage" (some "x")
  refine ⟨?_, h.2 (Schema.ofData none (some "x")) unitIndex1 1 rfl⟩
  rw [h.1]

/-- Resolved format info for a name, as `get_format_info` returns it:
the cached entry when present, the loaded handler otherwise. -/
def resolveFormat {MI SData : Type} (idx : Index MI SData) (n : String) : FormatInfo :=
  match assocGet idx.formatInfoCache n with
  | some i => i
  | none => idx.fmtLoad n

lemma get_format_info_eq {MI SData : Type} (idx : Index MI SData) (n : String) :
    (idx.get_format_info n).1 = resolveFormat idx n ∧
    ∀ n', resolveFormat (idx.get_format_info n).2 n' = resolveFormat idx n' := by
  unfold Index.get_format_info resolveFormat
  cases hc : assocGet idx.formatInfoCache n with
  | some i => exact ⟨rfl, fun n' => rfl⟩
  | none =>
    refine ⟨rfl, fun n' => ?_⟩
    simp only
    by_cases h' : n' = n
    · subst h'
      rw [assocGet_set_self, hc]
    · rw [assocGet_set_other _ _ _ _ h']

lemma detectScan_eq {MI SData : Type} (idx : Index MI SData) (names : List String) (v : String) :
    (detectScan idx names v).1 =
      (names.map (resolveFormat idx)).find? (fun i => i.version == v) := by
  induction names generalizing idx with
  | nil => rfl
  | cons n rest ih =>
    have hg := get_format_info_eq idx n
    unfold detectScan
    simp only [List.map_cons]
    by_cases hv : (idx.get_format_info n).1.version = v
    · rw [if_pos hv]
      have hp : ((resolveFormat idx n).version == v) = true := by
        rw [← hg.1]
        exact beq_iff_eq.mpr hv
      simp only [List.find?, hp]
      rw [hg.1]
    · rw [if_neg hv]
      have hp : ((resolveFormat idx n).version == v) = false := by
        rw [← hg.1]
        exact beq_eq_false_iff_ne.mpr hv
      simp only [List.find?, hp]
      rw [ih]
      congr 1
      exact List.map_congr_left (fun x hx => hg.2 x)

/-- Claim C9: `detect_format_info` reads the document's `version` field
(defaulting to "1"), scans the formats of `list_formats()` in
enumeration order and returns the first whose version equals it, or
none when no format matches. -/
theorem detect_first_match {MI SData : Type} (idx : Index MI SData)
    (doc : List (String × String)) :
    (idx.detect_format_info doc).1 =
      (idx.formatNames.map (resolveFormat idx)).find?
        (fun i => i.version == (assocGet doc "version").getD "1") := by
  unfold Index.detect_format_info
  exact detectScan_eq idx idx.formatNames _

end OsbuildMeta
